import Mathlib

/-!
Verification of `GoldAppleParser` (src/gold_apple_parser.py).

The Python source is shallowly embedded as follows:

* Python/JSON values are modelled by the inductive `JsonVal`; Python strings
  are modelled as `List Char`.
* Exceptions raised by subscripting (`KeyError`, and `TypeError` /
  `AttributeError` for operations on a value of the wrong shape) are
  modelled by computations in `Except PyErr`.
* The network is modelled as an environment: each page request for a
  (category, proxy) pair yields an `HttpOutcome` (a transport failure, or a
  response with a status code and an optionally JSON-parseable body).  A
  category's environment is the finite list of outcomes its successive page
  requests would observe; past the end of the list the network fails, which
  the crawler treats like any failed fetch (it stops).
* `asyncio.gather` with its default settings returns the task results in
  task-submission order, and re-raises an exception if any task raised one;
  it is modelled by the order-preserving, error-propagating `exceptMap`.
  Which of several concurrently raised exceptions surfaces depends on
  timing, so theorems about a crashed run only assert existence of an error.
* The output file is written (mode "w", truncating) only after all crawls
  finish; `fileOutput` maps a run outcome to its effect on the output sink.
-/

/-- A JSON value as produced by `response.json()` in Python: `null`,
booleans, numbers (modelled as integers), strings, arrays and objects
(ordered key-value lists; key lookup takes the first match). -/
inductive JsonVal where
  | null
  | bool (b : Bool)
  | num (n : Int)
  | str (s : List Char)
  | arr (xs : List JsonVal)
  | obj (fields : List (List Char × JsonVal))

/-- A Python exception arising while normalizing a payload: `KeyError` for a
missing dictionary key, and `TypeError` for subscripting or iterating a value
of the wrong shape (Python's `TypeError`/`AttributeError`, merged). -/
inductive PyErr where
  | keyError (k : List Char)
  | typeError
deriving DecidableEq

/-- First-match key lookup in a JSON object's field list (Python `dict`
lookup; the objects produced by JSON parsing have unique keys). -/
def lookupKey (fields : List (List Char × JsonVal)) (k : List Char) : Option JsonVal :=
  match fields with
  | [] => none
  | (k', v) :: rest => if k' = k then some v else lookupKey rest k

/-- Python subscript `j[k]`: a `KeyError` when the key is absent from an
object, a `TypeError` when `j` is not an object. -/
def getKey (j : JsonVal) (k : List Char) : Except PyErr JsonVal :=
  match j with
  | .obj fields =>
    match lookupKey fields k with
    | some v => .ok v
    | none => .error (.keyError k)
  | _ => .error .typeError

/-- Python `j.get(k, d)`: defaulting lookup, only valid on objects. -/
def getKeyDefault (j : JsonVal) (k : List Char) (d : JsonVal) : Except PyErr JsonVal :=
  match j with
  | .obj fields => .ok ((lookupKey fields k).getD d)
  | _ => .error .typeError

/-- Python truthiness of a JSON value (`bool(j)`): `null`, `False`, `0`,
and empty strings/arrays/objects are falsy. -/
def truthy : JsonVal → Bool
  | .null => false
  | .bool b => b
  | .num n => n != 0
  | .str s => !s.isEmpty
  | .arr xs => !xs.isEmpty
  | .obj fs => !fs.isEmpty

/-- Does the character `c` occur in the string `s`? -/
def hasChar (c : Char) : List Char → Bool
  | [] => false
  | d :: ds => c == d || hasChar c ds

/-- Does `pat` occur as a contiguous substring of `s` (Python `pat in s`)? -/
def containsSub (pat : List Char) : List Char → Bool
  | [] => pat.isEmpty
  | c :: cs => pat.isPrefixOf (c :: cs) || containsSub pat cs

/-- Fuelled worker for `replaceAll`.  At each position, if the pattern
matches there, emit the replacement and skip past the match; otherwise keep
the character and move one position right.  One unit of fuel is spent per
step, and each step consumes at least one character of the input, so
`s.length` fuel always suffices. -/
def replaceAllF (pat rep : List Char) : Nat → List Char → List Char
  | _, [] => []
  | 0, s => s
  | fuel + 1, c :: cs =>
    if pat.isPrefixOf (c :: cs) then
      rep ++ replaceAllF pat rep fuel (List.drop pat.length (c :: cs))
    else
      c :: replaceAllF pat rep fuel cs

/-- Python `s.replace(pat, rep)`: replace every non-overlapping occurrence
of `pat` in `s` by `rep`, scanning left to right and resuming after each
replacement. -/
def replaceAll (pat rep s : List Char) : List Char :=
  replaceAllF pat rep s.length s

/-- The key `"itemId"` (line 78 of the source). -/
def itemIdKey : List Char := "itemId".data

/-- The key `"name"` (line 79). -/
def nameKey : List Char := "name".data

/-- The key `"brand"` (line 80). -/
def brandKey : List Char := "brand".data

/-- The key `"productType"` (line 81). -/
def productTypeKey : List Char := "productType".data

/-- The key `"imageUrls"` (line 82). -/
def imageUrlsKey : List Char := "imageUrls".data

/-- The key `"url"` (line 82). -/
def urlKey : List Char := "url".data

/-- The key `"inStock"` (line 83). -/
def inStockKey : List Char := "inStock".data

/-- The key `"price"` (line 84). -/
def priceKey : List Char := "price".data

/-- The key `"actual"` (line 84). -/
def actualKey : List Char := "actual".data

/-- The key `"amount"` (line 84). -/
def amountKey : List Char := "amount".data

/-- The key `"data"` (line 74). -/
def dataKey : List Char := "data".data

/-- The key `"products"` (line 74). -/
def productsKey : List Char := "products".data

/-- The default string for a missing brand or product type (lines 80-81 of
the source: the Russian string for "not specified"). -/
def notSpecified : List Char := "Не указан".data

/-- The template text replaced in each image URL (line 82 of the source):
the screen-size placeholder, a dot, and the format placeholder. -/
def placeholderPattern : List Char := "$\x7bscreen\x7d.$\x7bformat\x7d".data

/-- The screen-size placeholder on its own. -/
def screenPlaceholder : List Char := "$\x7bscreen\x7d".data

/-- The format placeholder on its own. -/
def formatPlaceholder : List Char := "$\x7bformat\x7d".data

/-- The replacement text substituted for the template (line 82). -/
def fullhdRepl : List Char := "fullhd.jpg".data

/-- Image URL resolution (line 82 of the source):
`img["url"].replace("${screen}.${format}", "fullhd.jpg")` applied to the
extracted url string. -/
def resolveUrl (s : List Char) : List Char :=
  replaceAll placeholderPattern fullhdRepl s

/-- One step of the comprehension on line 82: subscript the image entry with
`"url"` and resolve the resulting string; a non-string url is a Python
error (`.replace` on a non-string). -/
def resolveImageEntry (img : JsonVal) : Except PyErr (List Char) :=
  match getKey img urlKey with
  | .error e => .error e
  | .ok u =>
    match u with
    | .str s => .ok (resolveUrl s)
    | _ => .error .typeError

/-- Error-propagating map, left to right, stopping at the first error.
This is both Python's list comprehension over a fallible body and (at the
level of observable results) `asyncio.gather`: all results in input order,
or an error if any element produced one. -/
def exceptMap {α β : Type} (f : α → Except PyErr β) : List α → Except PyErr (List β)
  | [] => .ok []
  | x :: xs =>
    match f x with
    | .error e => .error e
    | .ok y =>
      match exceptMap f xs with
      | .error e => .error e
      | .ok ys => .ok (y :: ys)

/-- The whole photo list of line 82:
`[img["url"].replace(...) for img in product["imageUrls"]]`.  The item must
have an `imageUrls` key holding a list; iterating anything else is modelled
as a `TypeError`. -/
def extractPhotos (product : JsonVal) : Except PyErr (List (List Char)) :=
  match getKey product imageUrlsKey with
  | .error e => .error e
  | .ok urlsJson =>
    match urlsJson with
    | .arr imgs => exceptMap resolveImageEntry imgs
    | _ => .error .typeError

/-- The price expression of line 84:
`product["price"]["actual"]["amount"] if product["price"]["actual"] else None`.
The `actual` value's truthiness is tested; only a truthy value is
subscripted with `"amount"`. -/
def extractPrice (product : JsonVal) : Except PyErr JsonVal :=
  match getKey product priceKey with
  | .error e => .error e
  | .ok priceJson =>
    match getKey priceJson actualKey with
    | .error e => .error e
    | .ok actualJson =>
      if truthy actualJson then getKey actualJson amountKey else .ok .null

/-- The output unit built on lines 77-85 of the source: one dictionary per
product.  `photos` is a list of strings because line 82 forces each url
through `str.replace`; every other field holds whatever JSON value the
payload supplied. -/
structure Record where
  id : JsonVal
  name : JsonVal
  brand : JsonVal
  type : JsonVal
  photos : List (List Char)
  in_stock : JsonVal
  price : JsonVal

/-- The record normalizer (lines 77-85 of the source), evaluating the dict
literal's entries in source order and raising on the first missing required
field or ill-shaped value. -/
def normalizeProduct (product : JsonVal) : Except PyErr Record :=
  match getKey product itemIdKey with
  | .error e => .error e
  | .ok idv =>
  match getKey product nameKey with
  | .error e => .error e
  | .ok namev =>
  match getKeyDefault product brandKey (.str notSpecified) with
  | .error e => .error e
  | .ok brandv =>
  match getKeyDefault product productTypeKey (.str notSpecified) with
  | .error e => .error e
  | .ok typev =>
  match extractPhotos product with
  | .error e => .error e
  | .ok photos =>
  match getKey product inStockKey with
  | .error e => .error e
  | .ok stockv =>
  match extractPrice product with
  | .error e => .error e
  | .ok pricev => .ok ⟨idv, namev, brandv, typev, photos, stockv, pricev⟩

/-- The observable outcome of one page request: a transport-level failure
(connection refused, proxy unreachable, timeout — anything that raises out
of `session.get`), or an HTTP response with a status code and a body that
either parses as JSON (`some j`) or does not (`none`, in which case
`response.json()` raises). -/
inductive HttpOutcome where
  | transportError
  | response (status : Nat) (body : Option JsonVal)

/-- `fetch_page` (lines 34-59 of the source): returns the parsed JSON on a
200 response, and `None` on any failure — a non-200 status falls through to
`return None`, and a transport error or an unparseable body raises inside
the `try`, is caught, logged and turned into `return None`.  The function
never lets an exception escape. -/
def fetch_page : HttpOutcome → Option JsonVal
  | .transportError => none
  | .response status body => if status == 200 then body else none

/-- The double subscript `data["data"]["products"]` of line 74. -/
def pageProducts (j : JsonVal) : Except PyErr JsonVal :=
  match getKey j dataKey with
  | .error e => .error e
  | .ok d => getKey d productsKey

/-- The `while True` loop of `parse_category` (lines 69-87), with `acc` the
`results` accumulator and the list holding the outcomes of the successive
page requests.  The loop breaks (returning the accumulated records) when a
fetch returns `None`, when the returned JSON is falsy, or when the products
list is falsy; otherwise it normalizes every product of the page and
continues with the next page.  A missing `data`/`products` key, a non-list
truthy products value, or a normalizer error raises out of the whole
function, discarding the accumulator. -/
def crawlStep (acc : List Record) : List HttpOutcome → Except PyErr (List Record)
  | [] => .ok acc
  | o :: rest =>
    match fetch_page o with
    | none => .ok acc
    | some j =>
      if truthy j then
        match pageProducts j with
        | .error e => .error e
        | .ok products =>
          if truthy products then
            match products with
            | .arr ps =>
              match exceptMap normalizeProduct ps with
              | .error e => .error e
              | .ok recs => crawlStep (acc ++ recs) rest
            | _ => .error .typeError
          else .ok acc
      else .ok acc

/-- `parse_category` (lines 61-87): crawl one category, starting from page 1
(`page_number = 1`) with an empty accumulator (`results = []`). -/
def parse_category (pages : List HttpOutcome) : Except PyErr (List Record) :=
  crawlStep [] pages

/-- The network environment of a run: for a category id crawled through a
proxy, the outcomes its successive page requests would observe. -/
def Network : Type := List Char → List Char → List HttpOutcome

/-- The observable outcome of `run` (lines 89-116): an early return on the
proxy-count check (line 100-102), an exception propagating out of
`asyncio.gather` (line 109), or normal completion with one record list per
category in input order. -/
inductive RunResult where
  | configError
  | crashed (e : PyErr)
  | ok (results : List (List Record))

/-- `run` (lines 89-116 of the source), with file I/O abstracted into the
input lists and the network environment: fail fast when there are fewer
proxies than categories; otherwise crawl every `zip`-pair (category i with
proxy i, surplus proxies unused) and gather the per-category results in
input order, propagating any exception. -/
def run (category_ids proxies : List (List Char)) (net : Network) : RunResult :=
  if proxies.length < category_ids.length then .configError
  else
    match exceptMap (fun cp => parse_category (net cp.1 cp.2)) (category_ids.zip proxies) with
    | .error e => .crashed e
    | .ok rs => .ok rs

/-- Effect of a run on the output sink. -/
inductive FileEffect where
  | untouched
  | written (lines : List Record)

/-- The write phase (lines 111-114 of the source): only a normally
completed run opens the output file (mode "w", truncating) and writes one
line per record, categories in order; a config-error return or a
propagating exception never reaches the `open`. -/
def fileOutput : RunResult → FileEffect
  | .ok rs => .written rs.flatten
  | _ => .untouched

/-- The class of failed fetches named by the spec: transport-level failure,
non-200 status, or a 200 response whose body is not JSON. -/
def fetchFails : HttpOutcome → Bool
  | .transportError => true
  | .response status body => status != 200 || body.isNone

/-- A 200 response whose body is the JSON page
`{"data": {"products": ps}}` — the shape a successful catalog request
returns. -/
def okPage (ps : List JsonVal) : HttpOutcome :=
  .response 200 (some (.obj [(dataKey, .obj [(productsKey, .arr ps)])]))

/-- A well-formed catalog item: all required fields present, one templated
image URL, an actual price of 100 (the spec's worked scenario). -/
def goodItemJson : JsonVal :=
  .obj [(itemIdKey, .str "x1".data), (nameKey, .str "Shoe".data),
    (imageUrlsKey, .arr [.obj [(urlKey, .str "http://img/$\x7bscreen\x7d.$\x7bformat\x7d".data)]]),
    (inStockKey, .bool true), (priceKey, .obj [(actualKey, .obj [(amountKey, .num 100)])])]

/-- A malformed catalog item: the required `itemId` field is missing. -/
def badItemJson : JsonVal :=
  .obj [(nameKey, .str "NoId".data), (imageUrlsKey, .arr []),
    (inStockKey, .bool true), (priceKey, .obj [(actualKey, .null)])]

/-- A sample category id. -/
def catA : List Char := "catA".data

/-- A second sample category id. -/
def catB : List Char := "catB".data

/-- A sample proxy descriptor. -/
def proxy1 : List Char := "http://10.0.0.1:8080".data

/-- A second sample proxy descriptor. -/
def proxy2 : List Char := "http://10.0.0.2:8080".data

/-- A network where `catA`'s first page is fine but its second page holds a
malformed item, while every other category serves one good page and is then
exhausted. -/
def netC1 : Network := fun c _ =>
  if c = catA then [okPage [goodItemJson], okPage [badItemJson]]
  else [okPage [goodItemJson], okPage []]

/-- A network where `catA`'s very first page holds a malformed item. -/
def netBadFirst : Network := fun c _ =>
  if c = catA then [okPage [badItemJson], .transportError]
  else [okPage [goodItemJson], okPage []]

/-- A network serving one good page per category, then an empty page. -/
def sampleNet : Network := fun _ _ => [okPage [goodItemJson], okPage []]

/-- The record `goodItemJson` normalizes to. -/
def goodRecord : Record :=
  ⟨.str "x1".data, .str "Shoe".data, .str notSpecified, .str notSpecified,
    ["http://img/fullhd.jpg".data], .bool true, .num 100⟩

/-! Helper lemmas about the string-replacement model. -/

theorem isPrefixOf_append_self (p b : List Char) : p.isPrefixOf (p ++ b) = true := by
  induction p with
  | nil => simp [List.isPrefixOf]
  | cons c cs ih => simp [List.isPrefixOf, ih]

theorem isPrefixOf_of_append (p q l : List Char) (h : (p ++ q).isPrefixOf l = true) :
    p.isPrefixOf l = true := by
  induction p generalizing l with
  | nil => simp [List.isPrefixOf]
  | cons c cs ih =>
    cases l with
    | nil => simp [List.isPrefixOf] at h
    | cons d ds =>
      simp only [List.cons_append, List.isPrefixOf, Bool.and_eq_true] at h ⊢
      exact ⟨h.1, ih ds h.2⟩

theorem containsSub_append_pat (p q s : List Char) (h : containsSub p s = false) :
    containsSub (p ++ q) s = false := by
  induction s with
  | nil =>
    simp only [containsSub] at h ⊢
    cases p with
    | nil => simp [List.isEmpty] at h
    | cons x xs => simp [List.isEmpty]
  | cons c cs ih =>
    simp only [containsSub, Bool.or_eq_false_iff] at h ⊢
    refine ⟨?_, ih h.2⟩
    cases hcase : (p ++ q).isPrefixOf (c :: cs) with
    | false => rfl
    | true => exact absurd (isPrefixOf_of_append p q _ hcase) (by simp [h.1])

theorem containsSub_of_hasChar_false (c : Char) (t s : List Char)
    (h : hasChar c s = false) : containsSub (c :: t) s = false := by
  induction s with
  | nil => simp [containsSub, List.isEmpty]
  | cons d ds ih =>
    simp only [hasChar, Bool.or_eq_false_iff] at h
    simp only [containsSub, Bool.or_eq_false_iff]
    refine ⟨?_, ih h.2⟩
    simp [List.isPrefixOf, h.1]

theorem replaceAllF_no_match (pat rep : List Char) :
    ∀ (fuel : Nat) (s : List Char), containsSub pat s = false →
      replaceAllF pat rep fuel s = s := by
  intro fuel
  induction fuel with
  | zero => intro s _; cases s <;> rfl
  | succ f ih =>
    intro s h
    cases s with
    | nil => rfl
    | cons c cs =>
      simp only [containsSub, Bool.or_eq_false_iff] at h
      simp only [replaceAllF, h.1, Bool.false_eq_true, if_false]
      exact congrArg (c :: ·) (ih cs h.2)

theorem replaceAll_no_match (pat rep s : List Char) (h : containsSub pat s = false) :
    replaceAll pat rep s = s :=
  replaceAllF_no_match pat rep s.length s h

theorem replaceAllF_irrel (pat rep : List Char) (hp : pat ≠ []) :
    ∀ (f1 f2 : Nat) (s : List Char), s.length ≤ f1 → s.length ≤ f2 →
      replaceAllF pat rep f1 s = replaceAllF pat rep f2 s := by
  have hplen : 0 < pat.length := List.length_pos.mpr hp
  intro f1
  induction f1 with
  | zero =>
    intro f2 s h1 _
    have : s = [] := List.length_eq_zero.mp (Nat.le_zero.mp h1)
    subst this
    cases f2 <;> rfl
  | succ f ih =>
    intro f2 s h1 h2
    cases s with
    | nil => cases f2 <;> rfl
    | cons c cs =>
      cases f2 with
      | zero => simp at h2
      | succ f2' =>
        simp only [replaceAllF]
        cases hcase : pat.isPrefixOf (c :: cs) with
        | true =>
          simp only [if_true]
          have hdl : (List.drop pat.length (c :: cs)).length ≤ f := by
            simp only [List.length_drop, List.length_cons]
            simp only [List.length_cons] at h1
            omega
          have hdl2 : (List.drop pat.length (c :: cs)).length ≤ f2' := by
            simp only [List.length_drop, List.length_cons]
            simp only [List.length_cons] at h2
            omega
          exact congrArg (rep ++ ·) (ih f2' _ hdl hdl2)
        | false =>
          simp only [Bool.false_eq_true, if_false]
          simp only [List.length_cons] at h1 h2
          exact congrArg (c :: ·) (ih f2' cs (by omega) (by omega))

theorem replaceAll_head_match (c : Char) (t rep b : List Char) :
    replaceAll (c :: t) rep ((c :: t) ++ b) = rep ++ replaceAll (c :: t) rep b := by
  show replaceAllF (c :: t) rep ((c :: t) ++ b).length ((c :: t) ++ b) = _
  have hshape : (c :: t) ++ b = c :: (t ++ b) := by simp
  rw [hshape]
  have hlen : (c :: (t ++ b)).length = (t ++ b).length + 1 := by simp
  rw [hlen]
  have hpre : (c :: t).isPrefixOf (c :: (t ++ b)) = true := by
    rw [← hshape]; exact isPrefixOf_append_self _ _
  simp only [replaceAllF, hpre, if_true]
  have hdrop : List.drop (c :: t).length (c :: (t ++ b)) = b := by
    rw [← hshape]; exact List.drop_left _ _
  rw [hdrop]
  have := replaceAllF_irrel (c :: t) rep (by simp) (t ++ b).length b.length b
    (by simp) (le_refl _)
  rw [this]
  rfl

theorem replaceAll_skip (pat rep : List Char) (c : Char) (s : List Char)
    (h : pat.isPrefixOf (c :: s) = false) :
    replaceAll pat rep (c :: s) = c :: replaceAll pat rep s := by
  show replaceAllF pat rep (c :: s).length (c :: s) = _
  have : (c :: s).length = s.length + 1 := by simp
  rw [this]
  simp only [replaceAllF, h, Bool.false_eq_true, if_false]
  rfl

theorem hasChar_append (c : Char) (a b : List Char) :
    hasChar c (a ++ b) = (hasChar c a || hasChar c b) := by
  induction a with
  | nil => simp [hasChar]
  | cons d ds ih => simp [hasChar, ih, Bool.or_assoc]

theorem replaceAll_resolve (c : Char) (t rep a b : List Char)
    (ha : hasChar c a = false) (hb : hasChar c b = false) :
    replaceAll (c :: t) rep (a ++ (c :: t) ++ b) = a ++ rep ++ b := by
  induction a with
  | nil =>
    simp only [List.nil_append]
    rw [replaceAll_head_match]
    rw [replaceAll_no_match _ _ _ (containsSub_of_hasChar_false c t b hb)]
  | cons d ds ih =>
    simp only [hasChar, Bool.or_eq_false_iff] at ha
    have hpre : (c :: t).isPrefixOf (d :: (ds ++ (c :: t) ++ b)) = false := by
      simp [List.isPrefixOf, ha.1]
    have hshape : (d :: ds) ++ (c :: t) ++ b = d :: (ds ++ (c :: t) ++ b) := by simp
    rw [hshape, replaceAll_skip _ _ _ _ hpre, ih ha.2]
    simp

/-! Helper lemmas about `exceptMap`, the normalizer and `List.zip`. -/

theorem exceptMap_ok_get {α β : Type} (f : α → Except PyErr β) :
    ∀ (l : List α) (rs : List β), exceptMap f l = .ok rs →
      rs.length = l.length ∧
      ∀ (i : Nat) (h1 : i < l.length) (h2 : i < rs.length),
        f (l.get ⟨i, h1⟩) = .ok (rs.get ⟨i, h2⟩) := by
  intro l
  induction l with
  | nil =>
    intro rs h
    simp only [exceptMap] at h
    cases h
    exact ⟨rfl, fun i h1 _ => absurd h1 (by simp)⟩
  | cons x xs ih =>
    intro rs h
    simp only [exceptMap] at h
    cases hfx : f x with
    | error e => simp only [hfx] at h; exact (Except.noConfusion h)
    | ok y =>
      simp only [hfx] at h
      cases hrec : exceptMap f xs with
      | error e => simp only [hrec] at h; exact (Except.noConfusion h)
      | ok ys =>
        simp only [hrec] at h
        cases h
        obtain ⟨hlen, hget⟩ := ih ys hrec
        refine ⟨by simp [hlen], ?_⟩
        intro i h1 h2
        cases i with
        | zero => simpa using hfx
        | succ n =>
          simp only [List.get]
          exact hget n (by simpa using h1) (by simpa using h2)

theorem exceptMap_error_of_mem {α β : Type} (f : α → Except PyErr β) :
    ∀ (l : List α) (x : α), x ∈ l → ∀ (e : PyErr), f x = .error e →
      ∃ e2, exceptMap f l = .error e2 := by
  intro l
  induction l with
  | nil => intro x hx; cases hx
  | cons a as ih =>
    intro x hx e he
    rcases List.mem_cons.mp hx with h | h
    · subst h
      exact ⟨e, by simp [exceptMap, he]⟩
    · cases hfa : f a with
      | error e3 => exact ⟨e3, by simp [exceptMap, hfa]⟩
      | ok y =>
        obtain ⟨e2, h2⟩ := ih x h e he
        exact ⟨e2, by simp [exceptMap, hfa, h2]⟩

theorem exceptMap_map_ok {α β : Type} (f : α → Except PyErr β) (g : α → β) :
    ∀ (l : List α), (∀ x ∈ l, f x = .ok (g x)) →
      exceptMap f l = .ok (l.map g) := by
  intro l
  induction l with
  | nil => intro _; rfl
  | cons a as ih =>
    intro h
    have ha := h a (by simp)
    have has := ih (fun x hx => h x (by simp [hx]))
    simp [exceptMap, ha, has]

theorem normalizeProduct_ok_fields (product : JsonVal) (rec : Record)
    (h : normalizeProduct product = .ok rec) :
    getKey product itemIdKey = .ok rec.id ∧
    getKey product nameKey = .ok rec.name ∧
    getKeyDefault product brandKey (.str notSpecified) = .ok rec.brand ∧
    getKeyDefault product productTypeKey (.str notSpecified) = .ok rec.type ∧
    extractPhotos product = .ok rec.photos ∧
    getKey product inStockKey = .ok rec.in_stock ∧
    extractPrice product = .ok rec.price := by
  unfold normalizeProduct at h
  cases h1 : getKey product itemIdKey with
  | error e => simp only [h1] at h; exact (Except.noConfusion h)
  | ok idv =>
  simp only [h1] at h
  cases h2 : getKey product nameKey with
  | error e => simp only [h2] at h; exact (Except.noConfusion h)
  | ok namev =>
  simp only [h2] at h
  cases h3 : getKeyDefault product brandKey (.str notSpecified) with
  | error e => simp only [h3] at h; exact (Except.noConfusion h)
  | ok brandv =>
  simp only [h3] at h
  cases h4 : getKeyDefault product productTypeKey (.str notSpecified) with
  | error e => simp only [h4] at h; exact (Except.noConfusion h)
  | ok typev =>
  simp only [h4] at h
  cases h5 : extractPhotos product with
  | error e => simp only [h5] at h; exact (Except.noConfusion h)
  | ok photos =>
  simp only [h5] at h
  cases h6 : getKey product inStockKey with
  | error e => simp only [h6] at h; exact (Except.noConfusion h)
  | ok stockv =>
  simp only [h6] at h
  cases h7 : extractPrice product with
  | error e => simp only [h7] at h; exact (Except.noConfusion h)
  | ok pricev =>
  simp only [h7] at h
  cases h
  exact ⟨rfl, rfl, rfl, rfl, rfl, rfl, rfl⟩

theorem zip_take_self {α β : Type} :
    ∀ (l1 : List α) (l2 : List β), l1.zip l2 = l1.zip (l2.take l1.length) := by
  intro l1
  induction l1 with
  | nil => intro l2; simp
  | cons a as ih =>
    intro l2
    cases l2 with
    | nil => simp
    | cons b bs => simp [List.zip_cons_cons, ih bs]

/-! Claim theorems. -/

/-- C2: if the proxy list is strictly shorter than the category list, `run`
terminates with a configuration error before any crawl is attempted.  The
network environment is universally quantified and never consulted: the
result is `configError` whatever the network would have answered, so zero
fetch requests are performed and no per-category crawl is started. -/
theorem c2_config_error_before_any_crawl (category_ids proxies : List (List Char))
    (net : Network) (h : proxies.length < category_ids.length) :
    run category_ids proxies net = .configError := by
  simp [run, h]

/-- C2 witness: two categories and one proxy fail fast with the
configuration error. -/
theorem c2_config_error_witness :
    ([proxy1] : List (List Char)).length < ([catA, catB] : List (List Char)).length ∧
    run [catA, catB] [proxy1] sampleNet = .configError :=
  ⟨by decide, c2_config_error_before_any_crawl [catA, catB] [proxy1] sampleNet (by decide)⟩

/-- C9: when `run` terminates on the proxy-count check, the output sink is
entirely untouched — the configuration-error early return happens before the
output file is opened, so no creation, truncation or modification of a
pre-existing file occurs, for every network environment. -/
theorem c9_config_error_leaves_output_untouched (category_ids proxies : List (List Char))
    (net : Network) (h : proxies.length < category_ids.length) :
    fileOutput (run category_ids proxies net) = .untouched := by
  simp [run, h, fileOutput]

/-- C9 witness: with two categories and one proxy the output sink stays
untouched. -/
theorem c9_config_error_leaves_output_untouched_witness :
    ([proxy2] : List (List Char)).length < ([catA, catB] : List (List Char)).length ∧
    fileOutput (run [catA, catB] [proxy2] netC1) = .untouched :=
  ⟨by decide, c9_config_error_leaves_output_untouched [catA, catB] [proxy2] netC1 (by decide)⟩

/-- C10: for an empty category list and any proxy list, `run` completes
successfully without consulting the network (the environment is universally
quantified), and the output file is opened in overwrite mode and written
with zero records — truncating any previous contents. -/
theorem c10_empty_categories_write_empty_output (proxies : List (List Char)) (net : Network) :
    run [] proxies net = .ok [] ∧ fileOutput (run [] proxies net) = .written [] := by
  have hz : (([] : List (List Char)).zip proxies) = [] := rfl
  constructor
  · simp [run, hz, exceptMap]
  · simp [run, hz, exceptMap, fileOutput]

/-- C3: on a failed page fetch — transport-level failure, non-200 status,
or a 200 response whose body is not JSON — the fetcher returns the `None`
failure signal instead of raising, and the crawl loop breaks at once: from
any accumulated state `acc` the category's crawl returns exactly `acc`,
ignoring whatever pages would have followed (no retry); in particular a
category whose first page fails yields the empty record list. -/
theorem c3_fetch_failure_ends_crawl (o : HttpOutcome) (acc : List Record)
    (rest : List HttpOutcome) (h : fetchFails o = true) :
    fetch_page o = none ∧ crawlStep acc (o :: rest) = .ok acc ∧
    parse_category (o :: rest) = .ok [] := by
  have hf : fetch_page o = none := by
    cases o with
    | transportError => rfl
    | response status body =>
      simp only [fetchFails, Bool.or_eq_true] at h
      rcases h with h | h
      · have hb : (status == 200) = false := by
          rw [Bool.eq_false_iff]
          intro hbeq
          rw [bne, hbeq] at h
          simp at h
        simp [fetch_page, hb]
      · have hb : body = none := Option.isNone_iff_eq_none.mp h
        subst hb
        simp [fetch_page]
  exact ⟨hf, by simp [crawlStep, hf], by simp [parse_category, crawlStep, hf]⟩

/-- C3 witness: an HTTP 500 page ends the crawl immediately with the one
record accumulated from the prior pages, and a first-page failure yields
zero records. -/
theorem c3_fetch_failure_ends_crawl_witness :
    fetchFails (.response 500 (some (.obj []))) = true ∧
    (fetch_page (.response 500 (some (.obj []))) = none ∧
      crawlStep [goodRecord] (.response 500 (some (.obj [])) :: [okPage [goodItemJson]]) =
        .ok [goodRecord] ∧
      parse_category (.response 500 (some (.obj [])) :: [okPage [goodItemJson]]) = .ok []) :=
  ⟨by decide,
    c3_fetch_failure_ends_crawl (.response 500 (some (.obj []))) [goodRecord]
      [okPage [goodItemJson]] (by decide)⟩

/-- C7: the normalizer's substitution is a no-op on an image URL that
contains no template placeholder: if neither the screen-size placeholder
nor the format placeholder occurs as a substring, `resolveUrl` returns the
string unchanged. -/
theorem c7_resolve_noop_on_resolved_url (s : List Char)
    (h1 : containsSub screenPlaceholder s = false)
    (h2 : containsSub formatPlaceholder s = false) :
    resolveUrl s = s := by
  have hsplit : placeholderPattern = screenPlaceholder ++ ('.' :: formatPlaceholder) := by
    decide
  have hnone : containsSub placeholderPattern s = false := by
    rw [hsplit]
    exact containsSub_append_pat _ _ _ h1
  exact replaceAll_no_match _ _ _ hnone

/-- C7 witness: an already-resolved URL is returned unchanged. -/
theorem c7_resolve_noop_witness :
    containsSub screenPlaceholder "http://img/fullhd.jpg".data = false ∧
    containsSub formatPlaceholder "http://img/fullhd.jpg".data = false ∧
    resolveUrl "http://img/fullhd.jpg".data = "http://img/fullhd.jpg".data :=
  ⟨by decide, by decide,
    c7_resolve_noop_on_resolved_url "http://img/fullhd.jpg".data (by decide) (by decide)⟩

/-- C8: the normalizer never fails on the brand and type fields — on any
object the defaulting lookup succeeds — and the produced Record's brand and
type are the looked-up values when the keys are present and the fixed
"not specified" sentinel when they are absent. -/
theorem c8_brand_type_default (fields : List (List Char × JsonVal)) (rec : Record)
    (hok : normalizeProduct (.obj fields) = .ok rec) :
    rec.brand = (lookupKey fields brandKey).getD (.str notSpecified) ∧
    rec.type = (lookupKey fields productTypeKey).getD (.str notSpecified) ∧
    (∀ d, ∃ v, getKeyDefault (.obj fields) brandKey d = .ok v) ∧
    (∀ d, ∃ v, getKeyDefault (.obj fields) productTypeKey d = .ok v) := by
  obtain ⟨-, -, hb, ht, -, -, -⟩ := normalizeProduct_ok_fields _ _ hok
  simp only [getKeyDefault] at hb ht
  exact ⟨(Except.ok.inj hb).symm, (Except.ok.inj ht).symm,
    fun d => ⟨_, rfl⟩, fun d => ⟨_, rfl⟩⟩

/-- C8 witness: `goodItemJson` has neither brand nor productType, and its
record carries the sentinel in both fields; the lookups indeed miss. -/
theorem c8_brand_type_default_witness :
    normalizeProduct goodItemJson = .ok goodRecord ∧
    goodRecord.brand =
      (lookupKey [(itemIdKey, .str "x1".data), (nameKey, .str "Shoe".data),
        (imageUrlsKey, .arr [.obj [(urlKey,
          .str "http://img/$\x7bscreen\x7d.$\x7bformat\x7d".data)]]),
        (inStockKey, .bool true),
        (priceKey, .obj [(actualKey, .obj [(amountKey, .num 100)])])]
        brandKey).getD (.str notSpecified) :=
  ⟨rfl,
    (c8_brand_type_default
      [(itemIdKey, .str "x1".data), (nameKey, .str "Shoe".data),
        (imageUrlsKey, .arr [.obj [(urlKey,
          .str "http://img/$\x7bscreen\x7d.$\x7bformat\x7d".data)]]),
        (inStockKey, .bool true),
        (priceKey, .obj [(actualKey, .obj [(amountKey, .num 100)])])]
      goodRecord rfl).1⟩

/-- C6: for a raw item whose price container has an `actual` field, the
Record's price is the nested amount whenever the amount is extractable from
`actual` (in particular whenever `actual` is a non-null object carrying an
`amount`), and is `null` — not zero — when `actual` is JSON null. -/
theorem c6_price_from_actual (product : JsonVal) (rec : Record) (pc a : JsonVal)
    (hok : normalizeProduct product = .ok rec)
    (hpc : getKey product priceKey = .ok pc)
    (hact : getKey pc actualKey = .ok a) :
    (∀ amt, getKey a amountKey = .ok amt → rec.price = amt) ∧
    (a = .null → rec.price = .null) := by
  obtain ⟨-, -, -, -, -, -, hp⟩ := normalizeProduct_ok_fields _ _ hok
  unfold extractPrice at hp
  simp only [hpc, hact] at hp
  constructor
  · intro amt hamt
    have htr : truthy a = true := by
      cases a with
      | obj fs =>
        cases fs with
        | nil => simp [getKey, lookupKey] at hamt
        | cons f fsrest => simp [truthy, List.isEmpty]
      | null => simp [getKey] at hamt
      | bool b => simp [getKey] at hamt
      | num n => simp [getKey] at hamt
      | str s => simp [getKey] at hamt
      | arr xs => simp [getKey] at hamt
    simp only [htr, if_true] at hp
    rw [hamt] at hp
    exact (Except.ok.inj hp).symm
  · intro ha
    subst ha
    simp only [truthy, Bool.false_eq_true, if_false] at hp
    exact (Except.ok.inj hp).symm

/-- C6 witness: `goodItemJson`'s actual amount is 100 and its record's
price is 100; with `actual` null the price would be null (instantiated via
the second conjunct on a null-actual item). -/
theorem c6_price_from_actual_witness :
    normalizeProduct goodItemJson = .ok goodRecord ∧
    getKey goodItemJson priceKey = .ok (.obj [(actualKey, .obj [(amountKey, .num 100)])]) ∧
    getKey (.obj [(actualKey, .obj [(amountKey, .num 100)])]) actualKey =
      .ok (.obj [(amountKey, .num 100)]) ∧
    getKey (.obj [(amountKey, .num 100)]) amountKey = .ok (.num 100) ∧
    goodRecord.price = .num 100 :=
  ⟨rfl, rfl, rfl, rfl,
    (c6_price_from_actual goodItemJson goodRecord _ _ rfl rfl rfl).1 (.num 100) rfl⟩

/-- Resolution of a single templated URL: with dollar-free text around one
occurrence of the placeholder pair, the substitution yields exactly the
surrounding text around the fixed replacement. -/
theorem resolveUrl_resolves (a b : List Char) (ha : hasChar '$' a = false)
    (hb : hasChar '$' b = false) :
    resolveUrl (a ++ placeholderPattern ++ b) = a ++ fullhdRepl ++ b := by
  have hpat : placeholderPattern = '$' :: "\x7bscreen\x7d.$\x7bformat\x7d".data := by decide
  unfold resolveUrl
  rw [hpat]
  exact replaceAll_resolve _ _ _ _ _ ha hb

/-- C4: for a raw item whose image entries each consist of a templated URL —
dollar-free text around the screen-size/format placeholder pair — the
normalizer substitutes the fixed full-HD/jpg replacement into the
placeholders of every entry: the Record's photos are the resolved URLs, one
per entry with the original entry order preserved, and no photo retains any
unresolved screen-size or format placeholder. -/
theorem c4_photos_fully_resolved (parts : List (List Char × List Char))
    (product : JsonVal) (rec : Record)
    (hok : normalizeProduct product = .ok rec)
    (hfield : getKey product imageUrlsKey =
      .ok (.arr (parts.map fun p =>
        .obj [(urlKey, .str (p.1 ++ placeholderPattern ++ p.2))])))
    (hclean : ∀ p ∈ parts, hasChar '$' p.1 = false ∧ hasChar '$' p.2 = false) :
    rec.photos = parts.map (fun p => p.1 ++ fullhdRepl ++ p.2) ∧
    ∀ photo ∈ rec.photos, containsSub screenPlaceholder photo = false ∧
      containsSub formatPlaceholder photo = false := by
  obtain ⟨-, -, -, -, hph, -, -⟩ := normalizeProduct_ok_fields _ _ hok
  unfold extractPhotos at hph
  simp only [hfield] at hph
  have hcalc : ∀ (ps : List (List Char × List Char)),
      (∀ p ∈ ps, hasChar '$' p.1 = false ∧ hasChar '$' p.2 = false) →
      exceptMap resolveImageEntry
        (ps.map fun p => JsonVal.obj [(urlKey, .str (p.1 ++ placeholderPattern ++ p.2))]) =
        .ok (ps.map fun p => p.1 ++ fullhdRepl ++ p.2) := by
    intro ps
    induction ps with
    | nil => intro _; rfl
    | cons q qs ih =>
      intro hcl
      have hq := hcl q (by simp)
      have hres : resolveImageEntry
          (JsonVal.obj [(urlKey, .str (q.1 ++ placeholderPattern ++ q.2))]) =
          .ok (q.1 ++ fullhdRepl ++ q.2) := by
        have : getKey (JsonVal.obj [(urlKey, .str (q.1 ++ placeholderPattern ++ q.2))])
            urlKey = .ok (.str (q.1 ++ placeholderPattern ++ q.2)) := rfl
        simp only [resolveImageEntry, this]
        rw [resolveUrl_resolves _ _ hq.1 hq.2]
      simp only [List.map_cons, exceptMap, hres,
        ih (fun p hp => hcl p (by simp [hp]))]
  have hphotos : rec.photos = parts.map fun p => p.1 ++ fullhdRepl ++ p.2 := by
    rw [hcalc parts hclean] at hph
    exact (Except.ok.inj hph).symm
  refine ⟨hphotos, ?_⟩
  intro photo hmem
  rw [hphotos] at hmem
  obtain ⟨p, hp, heq⟩ := List.mem_map.mp hmem
  have hnod : hasChar '$' photo = false := by
    rw [← heq, hasChar_append, hasChar_append]
    have hrepl : hasChar '$' fullhdRepl = false := by decide
    simp [(hclean p hp).1, (hclean p hp).2, hrepl]
  have hs : screenPlaceholder = '$' :: "\x7bscreen\x7d".data := by decide
  have hf : formatPlaceholder = '$' :: "\x7bformat\x7d".data := by decide
  rw [hs, hf]
  exact ⟨containsSub_of_hasChar_false _ _ _ hnod, containsSub_of_hasChar_false _ _ _ hnod⟩

/-- C4 witness: the worked item's single templated entry resolves to the
full-HD jpg URL and retains no placeholder. -/
theorem c4_photos_fully_resolved_witness :
    normalizeProduct goodItemJson = .ok goodRecord ∧
    goodRecord.photos = [("http://img/".data ++ fullhdRepl ++ [])] ∧
    (containsSub screenPlaceholder ("http://img/".data ++ fullhdRepl ++ []) = false ∧
      containsSub formatPlaceholder ("http://img/".data ++ fullhdRepl ++ []) = false) := by
  have h := c4_photos_fully_resolved [("http://img/".data, [])] goodItemJson goodRecord
    rfl rfl (by decide)
  exact ⟨rfl, h.1, h.2 _ (by rw [h.1]; simp)⟩

/-- C5: under the proxy-count precondition, `run` never reports a
configuration error, its outcome is unchanged when the surplus proxies
beyond the category count are dropped (they are ignored), and whenever it
completes it returns exactly one crawl result per category, in input-list
order, where entry i is precisely the crawl of category i through proxy i.
The embedding collects `asyncio.gather`'s results, which are delivered in
task-submission order whatever the completion order, so the output depends
only on the inputs. -/
theorem c5_ordered_results_positional_pairing (cats proxies : List (List Char))
    (net : Network) (h : cats.length ≤ proxies.length) :
    run cats proxies net = run cats (proxies.take cats.length) net ∧
    run cats proxies net ≠ .configError ∧
    ∀ rs, run cats proxies net = .ok rs →
      rs.length = cats.length ∧
      ∀ (i : Nat) (hi : i < cats.length) (hp : i < proxies.length) (hr : i < rs.length),
        parse_category (net (cats.get ⟨i, hi⟩) (proxies.get ⟨i, hp⟩)) =
          .ok (rs.get ⟨i, hr⟩) := by
  have hnotlt : ¬ proxies.length < cats.length := by omega
  have htk : ¬ (proxies.take cats.length).length < cats.length := by
    simp only [List.length_take]
    omega
  refine ⟨?_, ?_, ?_⟩
  · unfold run
    rw [if_neg hnotlt, if_neg htk, ← zip_take_self]
  · unfold run
    rw [if_neg hnotlt]
    cases hm : exceptMap (fun cp => parse_category (net cp.1 cp.2)) (cats.zip proxies) with
    | error e => simp
    | ok rs => simp
  · intro rs hrun
    unfold run at hrun
    rw [if_neg hnotlt] at hrun
    cases hm : exceptMap (fun cp => parse_category (net cp.1 cp.2)) (cats.zip proxies) with
    | error e =>
      rw [hm] at hrun
      exact (RunResult.noConfusion hrun)
    | ok rs2 =>
      rw [hm] at hrun
      cases hrun
      obtain ⟨hlen, hget⟩ := exceptMap_ok_get _ _ _ hm
      have hzlen : (cats.zip proxies).length = cats.length := by
        simp only [List.length_zip]
        omega
      refine ⟨by omega, ?_⟩
      intro i hi hp hr
      have h1 : i < (cats.zip proxies).length := by omega
      have hz : (cats.zip proxies).get ⟨i, h1⟩ =
          (cats.get ⟨i, hi⟩, proxies.get ⟨i, hp⟩) := by
        simp [List.get_eq_getElem, List.getElem_zip]
      have := hget i h1 hr
      rw [hz] at this
      exact this

/-- C5 witness: two categories with their two proxies (plus one surplus
proxy, which is ignored) produce one result per category in input order,
category i crawled through proxy i. -/
theorem c5_ordered_results_witness :
    ([catA, catB] : List (List Char)).length ≤
      ([proxy1, proxy2, "http://10.0.0.3:8080".data] : List (List Char)).length ∧
    run [catA, catB] [proxy1, proxy2, "http://10.0.0.3:8080".data] sampleNet =
      run [catA, catB]
        ([proxy1, proxy2, "http://10.0.0.3:8080".data].take
          ([catA, catB] : List (List Char)).length) sampleNet ∧
    run [catA, catB] [proxy1, proxy2, "http://10.0.0.3:8080".data] sampleNet ≠
      .configError := by
  have h := c5_ordered_results_positional_pairing [catA, catB]
    [proxy1, proxy2, "http://10.0.0.3:8080".data] sampleNet (by decide)
  exact ⟨by decide, h.1, h.2.1⟩

/-- A page whose (non-empty) product list contains an item the normalizer
rejects makes the whole crawl raise, from any accumulated state: the
accumulator is discarded and pages queued after the bad one are never
reached. -/
theorem crawlStep_bad_page_raises (acc : List Record) (ps : List JsonVal)
    (rest : List HttpOutcome) (e : PyErr) (hps : ps ≠ [])
    (he : exceptMap normalizeProduct ps = .error e) :
    crawlStep acc (okPage ps :: rest) = .error e := by
  have hfetch : fetch_page (okPage ps) =
      some (JsonVal.obj [(dataKey, .obj [(productsKey, .arr ps)])]) := rfl
  have hpp : pageProducts (JsonVal.obj [(dataKey, .obj [(productsKey, .arr ps)])]) =
      .ok (.arr ps) := rfl
  have htr2 : truthy (JsonVal.arr ps) = true := by
    cases ps with
    | nil => exact absurd rfl hps
    | cons a as => rfl
  simp [crawlStep, hfetch, hpp, htr2, truthy, he, hps]

/-- C1 counterexample: category `catA` serves one well-formed page and then
a page whose item lacks the required `itemId`, while sibling `catB` is
entirely well-behaved.  The claim predicts that `catA`'s crawl returns the
record accumulated from page 1 and that `catB`'s crawl is unaffected.  In
fact the missing field raises a `KeyError` that discards `catA`'s
accumulated record, propagates through the gather, crashes the whole run —
taking `catB`'s finished result down with it — and nothing is written. -/
theorem c1_claim_counterexample :
    parse_category (netC1 catA proxy1) = .error (.keyError itemIdKey) ∧
    parse_category (netC1 catB proxy2) = .ok [goodRecord] ∧
    run [catA, catB] [proxy1, proxy2] netC1 = .crashed (.keyError itemIdKey) ∧
    fileOutput (run [catA, catB] [proxy1, proxy2] netC1) = .untouched :=
  ⟨rfl, rfl, rfl, rfl⟩

/-- C1 (amended): if some item on a successfully fetched page is missing a
required field, the normalizer raises an error that terminates that
category's crawl WITHOUT returning the records accumulated before the
error (the accumulator is discarded from any state), and the error
propagates through the result gathering: the entire run crashes — sibling
crawls' results are discarded with it — and no output is written. -/
theorem c1_missing_field_aborts_run (ps : List JsonVal) (x : JsonVal) (e : PyErr)
    (hx : x ∈ ps) (hbad : normalizeProduct x = .error e) :
    (∀ (acc : List Record) (rest : List HttpOutcome),
      ∃ e1, crawlStep acc (okPage ps :: rest) = .error e1) ∧
    (∀ (cats proxies : List (List Char)) (net : Network) (i : Nat)
      (hi : i < cats.length) (hp : i < proxies.length),
      cats.length ≤ proxies.length →
      ∀ (rest : List HttpOutcome),
        net (cats.get ⟨i, hi⟩) (proxies.get ⟨i, hp⟩) = okPage ps :: rest →
        (∃ e2, run cats proxies net = .crashed e2) ∧
        fileOutput (run cats proxies net) = .untouched) := by
  have hps : ps ≠ [] := by
    intro hnil
    subst hnil
    exact List.not_mem_nil x hx
  obtain ⟨emap, hemap⟩ := exceptMap_error_of_mem normalizeProduct ps x hx e hbad
  refine ⟨fun acc rest => ⟨emap, crawlStep_bad_page_raises acc ps rest emap hps hemap⟩, ?_⟩
  intro cats proxies net i hi hp hlen rest hnet
  have hpc : parse_category (net (cats.get ⟨i, hi⟩) (proxies.get ⟨i, hp⟩)) = .error emap := by
    rw [hnet]
    exact crawlStep_bad_page_raises [] ps rest emap hps hemap
  have h1 : i < (cats.zip proxies).length := by
    simp only [List.length_zip]
    omega
  have hz : (cats.zip proxies).get ⟨i, h1⟩ =
      (cats.get ⟨i, hi⟩, proxies.get ⟨i, hp⟩) := by
    simp [List.get_eq_getElem, List.getElem_zip]
  have hmem : (cats.get ⟨i, hi⟩, proxies.get ⟨i, hp⟩) ∈ cats.zip proxies := by
    rw [← hz]
    exact List.get_mem _ _ _
  obtain ⟨e2, hrun⟩ := exceptMap_error_of_mem
    (fun cp => parse_category (net cp.1 cp.2)) (cats.zip proxies) _ hmem emap hpc
  have hnotlt : ¬ proxies.length < cats.length := by omega
  constructor
  · refine ⟨e2, ?_⟩
    unfold run
    rw [if_neg hnotlt, hrun]
  · unfold run
    rw [if_neg hnotlt, hrun]
    rfl

/-- C1 witness for the amended theorem: a category whose first page holds
the item missing `itemId` crashes its crawl from any accumulator and
crashes the whole two-category run, leaving the output untouched. -/
theorem c1_missing_field_aborts_run_witness :
    badItemJson ∈ [badItemJson] ∧
    normalizeProduct badItemJson = .error (.keyError itemIdKey) ∧
    (∃ e1, crawlStep [goodRecord] (okPage [badItemJson] :: [.transportError]) = .error e1) ∧
    (∃ e2, run [catA, catB] [proxy1, proxy2] netBadFirst = .crashed e2) ∧
    fileOutput (run [catA, catB] [proxy1, proxy2] netBadFirst) = .untouched := by
  have h := c1_missing_field_aborts_run [badItemJson] badItemJson (.keyError itemIdKey)
    (by simp) rfl
  have h2 := h.2 [catA, catB] [proxy1, proxy2] netBadFirst 0 (by decide) (by decide)
    (by decide) [.transportError] rfl
  exact ⟨by simp, rfl, h.1 [goodRecord] [.transportError], h2.1, h2.2⟩
